import Mathlib

/-!
Verification of the crawling core of `src/NovelScraper.py`.

The Python class `NovelScraper` is shallow-embedded below.  Pure string
manipulation (`clean_text` and its helpers, `find_next_chapter_link`,
the `{initial}-{end}` range parsing of `get_last_chapter_scraped`) is
translated to executable Lean functions over `String` / `List Char`.
File I/O on the frontier file (`write_to_file`, `get_url`) is modelled
with the file content passed and returned explicitly (`Option String`,
`none` = file does not exist).  The stateful fetch loop
(`scrape_one_webpage`) and the batch loop (`scrape_worker`) become
fuel-indexed step functions over an explicit state; the external
collaborators (HTTP transport, the interactive decision prompt of
`get_choice`, the replacement-URL prompt) are supplied as an
environment of oracle functions.  Python's mutable `self.chapters`
list is threaded as explicit state, and the unbound-local `chapter`
variable of the skip path is modelled as an `Option Chapter` local
that raises `PyError.unboundLocal` when referenced while `none`,
exactly as CPython raises `UnboundLocalError`.
-/

set_option linter.unusedVariables false

namespace NovelScraper

/-! ### Python string primitives -/

/-- The whitespace characters recognised by Python's `str.strip()`
(restricted to the ASCII range, which covers every character the
scraper ever strips). -/
def isPySpace (c : Char) : Bool :=
  c = ' ' || c = '\t' || c = '\n' || c = '\r' || c = '\x0b' || c = '\x0c'

/-- `str.strip()` on the character list of a string: drop leading and
trailing whitespace. -/
def stripChars (l : List Char) : List Char :=
  ((l.dropWhile isPySpace).reverse.dropWhile isPySpace).reverse

/-- Python `file.readlines()`: split into lines, each line keeping its
terminating `'\n'`; a final fragment without a newline is kept as a
last line, and an empty file yields no lines. -/
def pyLines : List Char → List (List Char)
  | [] => []
  | c :: rest =>
    if c = '\n' then ['\n'] :: pyLines rest
    else
      match pyLines rest with
      | [] => [[c]]
      | l :: ls => (c :: l) :: ls

/-- Python `str.split("\n")`: the separators are dropped and an empty
string yields `[""]`. -/
def splitNl : List Char → List (List Char)
  | [] => [[]]
  | c :: rest =>
    if c = '\n' then [] :: splitNl rest
    else
      match splitNl rest with
      | [] => [[c]]
      | l :: ls => (c :: l) :: ls

/-- Python's `pat in s` substring test. -/
def containsChars (pat : List Char) : List Char → Bool
  | [] => pat.isEmpty
  | c :: t => pat.isPrefixOf (c :: t) || containsChars pat t

/-- `pat in s` on `String`s (`s` first, mirroring `pat in s`). -/
def containsSub (s pat : String) : Bool :=
  containsChars pat.data s.data

/-! ### Content Cleaner -/

/-- Models `unicodedata.normalize('NFKC', data)`.  NFKC normalisation
is the identity on strings that are already in NFKC normal form (in
particular on all ASCII strings, which is all this development feeds
to the cleaner); we model the cleaner on that domain, where the
collaborator is the identity. -/
def nfkc (s : String) : String := s

/-- `remove_pattern`: drop every (newline-delimited) line that
case-insensitively contains `match_string`, and rejoin with `"\n"`.
`Char.toLower` is Python `str.lower` on the ASCII range. -/
def remove_pattern (data match_string : String) : String :=
  ⟨List.intercalate ['\n']
    ((splitNl data.data).filter
      (fun line => !containsChars (match_string.data.map Char.toLower)
        (line.map Char.toLower)))⟩

/-- First pattern of `pats` that is a prefix of `s`, returning the
remainder of `s` after it (the alternation `p1|p2|...` of `re.sub`
tries the alternatives in order at each position). -/
def matchFirst (pats : List (List Char)) (s : List Char) : Option (List Char) :=
  match pats with
  | [] => none
  | p :: ps => if p.isPrefixOf s then some (s.drop p.length) else matchFirst ps s

/-- One left-to-right pass of `re.sub('|'.join(...), '', data)`: at
each position, if some pattern matches, the match is dropped and the
scan resumes after it; matches are found in the original string only
(replacement text is never rescanned).  The fuel argument (always
called with the length of the list, which bounds the number of steps)
only makes the recursion structural. -/
def removeAllFuel (pats : List (List Char)) : Nat → List Char → List Char
  | 0, s => s
  | _ + 1, [] => []
  | f + 1, c :: rest =>
    match matchFirst pats (c :: rest) with
    | some remainder => removeAllFuel pats f remainder
    | none => c :: removeAllFuel pats f rest

/-- The literal exclusion strings of `clean_text`. -/
def exclusionPats : List (List Char) :=
  ["Translator:", "Atlas Studios", "Editor:", "EndlessFantasy Translation"].map String.data

/-- `remove_exclusions` with the exclusion list of `clean_text`. -/
def remove_exclusions (data : String) : String :=
  ⟨removeAllFuel exclusionPats data.data.length data.data⟩

/-- The literal `<p>` opening tag. -/
def pOpen : List Char := ['<', 'p', '>']

/-- The literal `</p>` closing tag. -/
def pClose : List Char := ['<', '/', 'p', '>']

/-- Split `s` at the first occurrence of `pat`: `some (pre, post)`
with `s = pre ++ pat ++ post`, or `none` when `pat` does not occur. -/
def splitAtSub (pat : List Char) : List Char → Option (List Char × List Char)
  | [] => none
  | c :: rest =>
    if pat.isPrefixOf (c :: rest) then some ([], (c :: rest).drop pat.length)
    else
      match splitAtSub pat rest with
      | none => none
      | some (pre, post) => some (c :: pre, post)

/-- A node of the parsed markup fragment: running text, or one `<p>`
element with its (flat) contents.  This models the BeautifulSoup
(`html.parser`) view of the fragments the cleaner receives, whose `p`
elements are flat (HTML `p` elements cannot nest; the parser
auto-closes them). -/
inductive HNode
  | textNode (t : List Char)
  | pNode (c : List Char)
deriving DecidableEq, Repr

/-- Fuel-indexed parser body for `parseP`; the fuel (called with the
input length, which strictly bounds the recursion depth) only makes
the recursion structural. -/
def parsePFuel : Nat → List Char → List HNode
  | 0, s => if s = [] then [] else [.textNode s]
  | f + 1, s =>
    match splitAtSub pOpen s with
    | none => if s = [] then [] else [.textNode s]
    | some (pre, rest) =>
      (if pre = [] then ([] : List HNode) else [.textNode pre]) ++
        match splitAtSub pClose rest with
        | none => [.pNode rest]
        | some (content, rest2) => .pNode content :: parsePFuel f rest2

/-- Parse a fragment into text and `<p>` elements, as
`soup(data, 'html.parser')` exposes it to `find_all('p')`: an unclosed
`<p>` is closed at the end of the fragment. -/
def parseP (s : List Char) : List HNode := parsePFuel s.length s

/-- Does the node list contain a `<p>` element?  (`p_tags` truthiness.) -/
def hasP (l : List HNode) : Bool :=
  l.any fun n => match n with | .pNode _ => true | .textNode _ => false

/-- `p_tags[-1].extract()`: remove the last `<p>` element, if any. -/
def removeLastP : List HNode → List HNode
  | [] => []
  | x :: rest =>
    if hasP rest then x :: removeLastP rest
    else
      match x with
      | .pNode _ => rest
      | .textNode t => .textNode t :: rest

/-- `str(data)` of the (possibly modified) soup: re-serialise the
fragment. -/
def render : List HNode → List Char
  | [] => []
  | .textNode t :: rest => t ++ render rest
  | .pNode c :: rest => pOpen ++ c ++ pClose ++ render rest

/-- `remove_last_p_tag`: parse, extract the last `<p>` element, and
re-serialise (the Python function returns the soup, which `clean_text`
passes to `str`; we fuse that `str` here). -/
def remove_last_p_tag (data : String) : String :=
  ⟨render (removeLastP (parseP data.data))⟩

/-- `clean_text`: NFKC-normalise, drop lines containing
`"libread.com"`, remove the literal exclusions, and remove the last
`<p>` element. -/
def clean_text (data : String) : String :=
  remove_last_p_tag (remove_exclusions (remove_pattern (nfkc data) "libread.com"))

/-! ### Errors raised by the Python code -/

/-- The runtime errors the embedded code can raise:
`unboundLocal` for CPython's `UnboundLocalError` (a local variable
referenced before assignment), `typeError` for `in` applied to
`None`. -/
inductive PyError
  | unboundLocal
  | typeError
deriving DecidableEq, Repr

/-! ### Page model and `find_next_chapter_link` -/

/-- The `<a id=BUTTON_ID>` element, as the markup-query collaborator
reports it: `href` is its (possibly absent) `href` attribute. -/
structure NextButton where
  href : Option String
deriving DecidableEq, Repr

/-- What one parsed page exposes to the scraper: the next-chapter
button (if `page_soup.find("a", {"id": BUTTON_ID})` matches) and the
prettified text of the content block (if
`find("div", {"class": TEXT_CLASS})` matches). -/
structure Page where
  nextButton : Option NextButton
  contentDiv : Option String
deriving DecidableEq, Repr

/-- `find_next_chapter_link`: no button means no next URL; with a
button, a link that already contains the domain is returned verbatim,
otherwise the domain is prefixed.  A button without an `href`
attribute makes Python evaluate `domain in None`, a `TypeError`. -/
def find_next_chapter_link (domain : String) (page : Page) :
    Except PyError (Option String) :=
  match page.nextButton with
  | none => .ok none
  | some btn =>
    match btn.href with
    | none => .error .typeError
    | some link =>
      if containsSub link domain then .ok (some link)
      else .ok (some (domain ++ link))

/-! ### Frontier Store: `write_to_file`, `get_url`,
`get_last_chapter_scraped` -/

/-- `write_to_file`, with the frontier file's content made explicit
(`none` = the file does not exist; the `FileNotFoundError` branch only
creates the directory, after which appending creates the file).  A
`None` value is ignored; otherwise the value is appended with a
newline unless the stripped last line of the file already equals it. -/
def write_to_file (fs : Option String) (value : Option String) : Option String :=
  match value with
  | none => fs
  | some v =>
    match fs with
    | none => some ⟨v.data ++ ['\n']⟩
    | some content =>
      match (pyLines content.data).getLast? with
      | some last =>
        if stripChars last = v.data then some content
        else some ⟨content.data ++ v.data ++ ['\n']⟩
      | none => some ⟨content.data ++ v.data ++ ['\n']⟩

/-- The stored lines of the (possibly absent) frontier file. -/
def linesOf : Option String → List (List Char)
  | none => []
  | some c => pyLines c.data

/-- The invariant of the frontier file as the store maintains it:
absent, empty, or newline-terminated (every append writes a trailing
newline). -/
def newlineTerminated : Option String → Prop
  | none => True
  | some c => c.data = [] ∨ c.data.getLast? = some '\n'

/-- `get_url`, with the file content explicit and the interactive
"Enter the First URL" prompt modelled by the `seed` argument.  Returns
(result, new file content, whether the seed prompt fired).  With an
existing file the last non-blank line (stripped) is returned, or
`None` when every line is blank; only a missing file prompts for a
seed, which is immediately persisted. -/
def get_url (fs : Option String) (seed : String) :
    Option String × Option String × Bool :=
  match fs with
  | some content =>
    match (((pyLines content.data).map stripChars).filter (· ≠ [])).getLast? with
    | some l => (some (⟨l⟩ : String), some content, false)
    | none => (none, some content, false)
  | none => (some seed, write_to_file none (some seed), true)

/-- One entry of `os.listdir(self.output_file_path)` together with its
`os.path.isdir` status. -/
structure DirEntry where
  name : String
  isDir : Bool
deriving DecidableEq, Repr

/-- `int()` of a list of ASCII digits. -/
def digitsVal (l : List Char) : Nat :=
  l.foldl (fun n c => n * 10 + (c.toNat - 48)) 0

/-- `re.match(r"(\d+)-(\d+)", name)` followed by `int` on the two
groups.  `re.match` anchors at the start only: the name must begin
with digits, a dash and digits, and anything after the second (greedy)
digit run is ignored. -/
def parseRange (name : String) : Option (Nat × Nat) :=
  let d1 := name.data.takeWhile Char.isDigit
  if d1 = [] then none
  else
    match name.data.dropWhile Char.isDigit with
    | '-' :: r2 =>
      let d2 := r2.takeWhile Char.isDigit
      if d2 = [] then none else some (digitsVal d1, digitsVal d2)
    | _ => none

/-- One step of the `get_last_chapter_scraped` loop: a directory whose
name matches the range pattern raises the running maximum to its `end`
value; everything else leaves it unchanged. -/
def glcsStep (highest : Option Nat) (e : DirEntry) : Option Nat :=
  match parseRange e.name with
  | some (_, en) =>
    if e.isDir then
      match highest with
      | none => some en
      | some h => some (max h en)
    else highest
  | none => highest

/-- `get_last_chapter_scraped`, with the output directory's listing
explicit (`none` = `self.output_file_path` is not a directory): the
maximum `end` over all subdirectories whose name matches
`(\d+)-(\d+)`, or `none` when there is no such subdirectory. -/
def get_last_chapter_scraped (listing : Option (List DirEntry)) : Option Nat :=
  match listing with
  | none => none
  | some entries => entries.foldl glcsStep none

/-- The start of `scrape_worker`: resume after the last completed
batch, or start at chapter 1. -/
def initial_chapter_number (last : Option Nat) : Nat :=
  match last with
  | some n => n + 1
  | none => 1

/-! ### Page Fetcher: `scrape_one_webpage` -/

/-- One chapter as built for the EPUB (`EpubHtml`): title, file name
and HTML content. -/
structure Chapter where
  title : String
  fileName : String
  content : String
deriving DecidableEq, Repr

/-- The mutable scraper state the fetch loop touches:
`self.chapters` (the `self.epub_book.add_item` calls mirror it
one-for-one and are not modelled separately). -/
structure ScrapeState where
  chapters : List Chapter
deriving DecidableEq, Repr

/-- The validated answers of `get_choice` (it re-prompts until the
input is one of `c`, `y`, `n`). -/
inductive Choice
  | c
  | y
  | n
deriving DecidableEq, Repr

/-- The external collaborators: `transport a u` is the outcome of the
`a`-th GET of the run against URL `u` (`none` = connection
error/timeout, which Python catches and retries), `choices k` the
`k`-th escalation answer, `newUrls k` the replacement URL typed after
the `k`-th escalation when the answer was `c`. -/
structure Env where
  transport : Nat → String → Option Page
  choices : Nat → Choice
  newUrls : Nat → String

/-- Counters into the oracle streams of `Env`: how many GETs and how
many escalation prompts have happened so far. -/
structure Ctr where
  attempt : Nat
  choice : Nat
deriving DecidableEq, Repr

/-- Observable events of one fetch loop, for stating the retry
properties: a transport failure (retried silently), a successful
content extraction, or a content failure, tagged with whether it
triggered an escalation decision. -/
inductive Ev
  | transportFail
  | success
  | contentFail (decision : Bool)
deriving DecidableEq, Repr

/-- Result of `scrape_one_webpage`: out of fuel (the Python loop would
still be running), a raised error, or the returned
`(has_more_pages, next_url)` pair together with the updated state,
oracle counters and event trace. -/
inductive ScrapeRes
  | fuelOut (trace : List Ev)
  | err (e : PyError) (st : ScrapeState) (trace : List Ev)
  | done (st : ScrapeState) (hasMore : Bool) (next : Option String) (ctr : Ctr)
      (trace : List Ev)
deriving DecidableEq, Repr

/-- Prepend an event to the trace of a result. -/
def consEv (e : Ev) : ScrapeRes → ScrapeRes
  | .fuelOut t => .fuelOut (e :: t)
  | .err x st t => .err x st (e :: t)
  | .done st b n c t => .done st b n c (e :: t)

/-- The trace of a result. -/
def traceOf : ScrapeRes → List Ev
  | .fuelOut t => t
  | .err _ _ t => t
  | .done _ _ _ _ t => t

/-- The decision flags of the content-failure events of a trace, in
order. -/
def decisionsOf (t : List Ev) : List Bool :=
  t.filterMap fun e =>
    match e with
    | .contentFail b => some b
    | _ => none

/-- The chapter built on a successful extraction:
`EpubHtml(title=f"Chapter {n}", file_name=f"chapter{n}.xhtml", ...)`
with content `<h2>Chapter {n}</h2>` followed by the cleaned body. -/
def mkChapter (n : Nat) (body : String) : Chapter :=
  { title := "Chapter " ++ toString n
    fileName := "chapter" ++ toString n ++ ".xhtml"
    content := "<h2>Chapter " ++ toString n ++ "</h2>" ++ clean_text body }

/-- The placeholder content the skip branch writes into `chapter`. -/
def placeholderContent (n : Nat) : String :=
  "<h2>Chapter " ++ toString n ++ "</h2> <p> Chapter not available </p>"

/-- The `while True` retry loop of `scrape_one_webpage`.  `retry_no`
starts at 1 and is incremented at the bottom of every iteration that
reaches it; a transport failure `continue`s before the increment.  On
a successful content extraction a chapter is appended and
`(True, next_url)` returned.  Otherwise, when `retry_no` is a multiple
of `max_retries` (`R`), `get_choice` is consulted: `n` assigns to
`chapter.content` — but `chapter` is a function local only ever
assigned on the success path, which returns immediately, so it is
unbound here (`chapterVar` tracks it) and CPython raises
`UnboundLocalError`; `c` replaces the URL with a freshly prompted one;
`y` just keeps retrying. -/
def scrape_loop (env : Env) (domain : String) (R : Nat) :
    Nat → ScrapeState → Ctr → String → Nat → Nat → Option Chapter → ScrapeRes
  | 0, _, _, _, _, _, _ => .fuelOut []
  | fuel + 1, st, ctr, web_url, webpage_no, retry_no, chapterVar =>
    match env.transport ctr.attempt web_url with
    | none =>
      consEv .transportFail
        (scrape_loop env domain R fuel st
          { ctr with attempt := ctr.attempt + 1 } web_url webpage_no retry_no
          chapterVar)
    | some page =>
      match find_next_chapter_link domain page with
      | .error e => .err e st []
      | .ok next_url =>
        match page.contentDiv with
        | some body =>
          .done ⟨st.chapters ++ [mkChapter webpage_no body]⟩ true next_url
            { ctr with attempt := ctr.attempt + 1 } [.success]
        | none =>
          if retry_no % R = 0 then
            match env.choices ctr.choice with
            | .n =>
              match chapterVar with
              | none => .err .unboundLocal st [.contentFail true]
              | some ch =>
                .done ⟨st.chapters ++ [{ ch with content := placeholderContent webpage_no }]⟩
                  true next_url
                  ⟨ctr.attempt + 1, ctr.choice + 1⟩ [.contentFail true]
            | .c =>
              consEv (.contentFail true)
                (scrape_loop env domain R fuel st
                  ⟨ctr.attempt + 1, ctr.choice + 1⟩ (env.newUrls ctr.choice)
                  webpage_no (retry_no + 1) chapterVar)
            | .y =>
              consEv (.contentFail true)
                (scrape_loop env domain R fuel st
                  ⟨ctr.attempt + 1, ctr.choice + 1⟩ web_url webpage_no
                  (retry_no + 1) chapterVar)
          else
            consEv (.contentFail false)
              (scrape_loop env domain R fuel st
                { ctr with attempt := ctr.attempt + 1 } web_url webpage_no
                (retry_no + 1) chapterVar)

/-- `scrape_one_webpage`: a `None` URL returns `(False, None)` at once
(no request, no state change); otherwise the retry loop runs with
`retry_no = 1` and the local `chapter` unbound. -/
def scrape_one_webpage (env : Env) (domain : String) (R : Nat) (fuel : Nat)
    (st : ScrapeState) (ctr : Ctr) (web_url : Option String)
    (webpage_no : Nat) : ScrapeRes :=
  match web_url with
  | none => .done st false none ctr []
  | some u => scrape_loop env domain R fuel st ctr u webpage_no 1 none

/-! ### Batch Crawler: `scrape_worker` -/

/-- Result of one `scrape_worker` run: out of fuel, an uncaught Python
error (with the state and frontier file at that moment — note the
frontier write never happened on this path), or normal completion with
the final state, frontier file, and the `(initial, final)` range
passed to `config_ebook_path`. -/
inductive WorkerOutcome
  | fuelOut
  | err (e : PyError) (st : ScrapeState) (fileState : Option String)
  | ok (st : ScrapeState) (fileState : Option String) (initial final : Nat)
deriving DecidableEq, Repr

/-- The `for i in range(initial, initial + batch_size)` loop of
`scrape_worker`, recursing on the number of remaining iterations.
After each fetch, a non-`None` returned URL becomes the last valid
URL; a `False` flag breaks the loop.  On exit the last valid URL is
appended to the frontier file and the final loop index reported.  With
zero remaining iterations at entry (only possible for `batch_size =
0`) Python still writes the frontier and then crashes referencing the
unbound loop variable `i` in `config_ebook_path`. -/
def worker_loop (env : Env) (domain : String) (R : Nat) (fuel init : Nat) :
    Nat → ScrapeState → Option String → Ctr → Option String → Option String →
      Nat → WorkerOutcome
  | 0, st, fs, _, _, lv, _ => .err .unboundLocal st (write_to_file fs lv)
  | rem + 1, st, fs, ctr, cur, lv, i =>
    match scrape_one_webpage env domain R fuel st ctr cur i with
    | .fuelOut _ => .fuelOut
    | .err e st2 _ => .err e st2 fs
    | .done st2 hasMore next ctr2 _ =>
      match hasMore, rem with
      | true, r + 1 =>
        worker_loop env domain R fuel init (r + 1) st2 fs ctr2 next
          (next.or lv) (i + 1)
      | true, 0 => .ok st2 (write_to_file fs (next.or lv)) init i
      | false, _ => .ok st2 (write_to_file fs (next.or lv)) init i

/-- `scrape_worker`: compute the starting chapter from the completed
batch directories, then run the batch loop from the initial URL. -/
def scrape_worker (env : Env) (domain : String) (R : Nat) (fuel : Nat)
    (st : ScrapeState) (fs : Option String) (listing : Option (List DirEntry))
    (initial_url : Option String) (batch_size : Nat) : WorkerOutcome :=
  let init := initial_chapter_number (get_last_chapter_scraped listing)
  worker_loop env domain R fuel init batch_size st fs ⟨0, 0⟩ initial_url
    initial_url init

/-! ### Concrete environments used to evaluate the embedding -/

/-- A source whose pages never satisfy the content selector and have
no next button; every escalation is answered `y` (keep retrying). -/
def envNoContent : Env :=
  ⟨fun _ _ => some ⟨none, none⟩, fun _ => .y, fun _ => "w"⟩

/-- A source whose pages never satisfy the content selector but carry
a next button; the escalation is answered `n` (skip). -/
def envSkip : Env :=
  ⟨fun _ _ => some ⟨some ⟨some "/next"⟩, none⟩, fun _ => .n, fun _ => "w"⟩

/-- Page `u1` has content and a next link `/c2`; every other page has
no content and no button; escalations are answered `n` (skip). -/
def envAbortRun : Env :=
  ⟨fun _ u =>
    if u = "u1" then some ⟨some ⟨some "/c2"⟩, some "Hello"⟩
    else some ⟨none, none⟩,
   fun _ => .n, fun _ => "w"⟩

/-- Page `u1` has content and no next button (end of content
immediately after the first chapter); other URLs are never fetched. -/
def envEarlyStop : Env :=
  ⟨fun _ u => if u = "u1" then some ⟨none, some "Hi"⟩ else none,
   fun _ => .y, fun _ => "w"⟩

/-- The three-chapter scenario: pages `u1`, `/2`, `/3` each have
content, the first two link onwards and page 3 has no next button. -/
def envScenario : Env :=
  ⟨fun _ u =>
    if u = "u1" then some ⟨some ⟨some "/2"⟩, some "A"⟩
    else if u = "https://x/2" then some ⟨some ⟨some "/3"⟩, some "B"⟩
    else if u = "https://x/3" then some ⟨none, some "C"⟩
    else some ⟨none, none⟩,
   fun _ => .y, fun _ => "w"⟩

/-! ### Claim theorems -/

/-- Claim C9: `scrape_one_webpage` on a `None` URL immediately returns
failure (`has_more_pages = False`) with no next URL, makes no network
request (empty trace, attempt counter untouched) and leaves the
accumulated chapter sequence unchanged. -/
theorem null_url_end_of_content (env : Env) (domain : String) (R fuel : Nat)
    (st : ScrapeState) (ctr : Ctr) (webpage_no : Nat) :
    scrape_one_webpage env domain R fuel st ctr none webpage_no =
      .done st false none ctr [] := rfl

/-- Claim C7: a next link containing the configured domain is returned
verbatim, any other link gets the domain prefixed (so `/ch/5` under
`https://example.com` resolves to `https://example.com/ch/5`), and a
page without a next-button match yields no next URL. -/
theorem next_link_normalization :
    (∀ (domain link : String) (cd : Option String),
        containsSub link domain = true →
        find_next_chapter_link domain ⟨some ⟨some link⟩, cd⟩ = .ok (some link)) ∧
    (∀ (domain link : String) (cd : Option String),
        containsSub link domain = false →
        find_next_chapter_link domain ⟨some ⟨some link⟩, cd⟩ =
          .ok (some (domain ++ link))) ∧
    (∀ (domain : String) (cd : Option String),
        find_next_chapter_link domain ⟨none, cd⟩ = .ok none) ∧
    find_next_chapter_link "https://example.com" ⟨some ⟨some "/ch/5"⟩, none⟩ =
      .ok (some "https://example.com/ch/5") := by
  refine ⟨?_, ?_, ?_, rfl⟩
  · intro d l cd h
    simp [find_next_chapter_link, h]
  · intro d l cd h
    simp [find_next_chapter_link, h]
  · intro d cd
    rfl

/-- Witness for C7 at the spec's concrete example. -/
theorem next_link_normalization_witness :
    containsSub "/ch/5" "https://example.com" = false ∧
    find_next_chapter_link "https://example.com" ⟨some ⟨some "/ch/5"⟩, none⟩ =
      .ok (some ("https://example.com" ++ "/ch/5")) :=
  ⟨by decide,
   next_link_normalization.2.1 "https://example.com" "/ch/5" none (by decide)⟩

/-- Claim C1 (evaluation at the failing input): with `maxRetries = 3`,
a page that never yields content, and the escalation answered `n`
(skip-with-placeholder), `scrape_one_webpage` does not synthesize a
placeholder unit — it raises `UnboundLocalError`, because the local
`chapter` is only ever assigned on the success path, which returns
immediately.  The trace shows two silent content failures and the
escalation on the third. -/
theorem skip_placeholder_unbound_local :
    scrape_one_webpage envSkip "https://x" 3 5 ⟨[]⟩ ⟨0, 0⟩ (some "u") 2 =
      .err .unboundLocal ⟨[]⟩
        [.contentFail false, .contentFail false, .contentFail true] := by
  decide

/-- Claim C2 (counterexample): `clean_text` is not idempotent even on
an input free of every forbidden pattern, because the last-`<p>`
removal is unconditional: on `"<p>a</p><p>b</p>"` the first pass
yields `"<p>a</p>"` and the second pass removes that paragraph too.
The last two conjuncts certify that the first pass's output contains
no forbidden pattern (both removal passes fix it). -/
theorem cleaner_not_idempotent :
    clean_text (clean_text "<p>a</p><p>b</p>") ≠ clean_text "<p>a</p><p>b</p>" ∧
    remove_pattern (clean_text "<p>a</p><p>b</p>") "libread.com" =
      clean_text "<p>a</p><p>b</p>" ∧
    remove_exclusions (clean_text "<p>a</p><p>b</p>") =
      clean_text "<p>a</p><p>b</p>" := by
  decide

/-- Claim C3 (counterexample): batch size 2 from a source whose first
page yields a unit but no next link.  The run is not aborted; yet the
reported range is `(1, 2)` while the only unit produced has index 1:
the reported `final` is the loop index at which end-of-content was
detected, one past the last harvested unit, not the index of the last
unit produced. -/
theorem batch_report_range_counterexample :
    scrape_worker envEarlyStop "https://x" 1 3 ⟨[]⟩ none none (some "u1") 2 =
      .ok ⟨[⟨"Chapter 1", "chapter1.xhtml", "<h2>Chapter 1</h2>Hi"⟩]⟩
        (some "u1\n") 1 2 ∧
    (2 : Nat) ≠ 1 := by
  decide

/-- Claim C8 (evaluation at the failing input): the escalation prompt
offers only `c`/`y`/`n` — no abort resolution exists.  The only
escalation answer that terminates the page (`n`) raises
`UnboundLocalError`, which aborts the whole batch run: chapter 1 was
harvested, but the outcome is an error state in which the frontier
file was never written (`none`) and packaging is never reached —
contradicting the claim that on abort the prior completed units are
still persisted and packaged. -/
theorem abort_path_crash :
    scrape_worker envAbortRun "https://x" 1 5 ⟨[]⟩ none none (some "u1") 3 =
      .err .unboundLocal
        ⟨[⟨"Chapter 1", "chapter1.xhtml", "<h2>Chapter 1</h2>Hello"⟩]⟩ none := by
  decide

/-- Claim C10: when the frontier file exists but all its lines are
blank, `get_url` returns `None` without prompting for a seed URL and
without touching the file; more generally the seed prompt never fires
when the file exists. -/
theorem blank_frontier_no_prompt :
    (∀ (content seed : String),
        ((pyLines content.data).map stripChars).filter (· ≠ []) = [] →
        get_url (some content) seed = (none, some content, false)) ∧
    (∀ (content seed : String),
        (get_url (some content) seed).2.2 = false ∧
        (get_url (some content) seed).2.1 = some content) := by
  constructor
  · intro content seed h
    simp only [get_url]
    rw [h]
    rfl
  · intro content seed
    simp only [get_url]
    rcases hL : (((pyLines content.data).map stripChars).filter (· ≠ [])).getLast?
        with _ | l <;> rw [hL] <;> exact ⟨rfl, rfl⟩

/-- Witness for C10 on a file of three blank lines. -/
theorem blank_frontier_no_prompt_witness :
    ((pyLines (" \n\n\t\n" : String).data).map stripChars).filter (· ≠ []) = [] ∧
    get_url (some " \n\n\t\n") "seed" = (none, some " \n\n\t\n", false) :=
  ⟨by decide, blank_frontier_no_prompt.1 " \n\n\t\n" "seed" (by decide)⟩

/-- Unfolding one matching directory entry through the
`get_last_chapter_scraped` step. -/
theorem glcsStep_matching (highest : Option Nat) (e : DirEntry) (en : Nat)
    (h : (if e.isDir then (parseRange e.name).map Prod.snd else none) = some en) :
    glcsStep highest e =
      some (match highest with | none => en | some a => max a en) := by
  by_cases hd : e.isDir
  · rw [if_pos hd] at h
    obtain ⟨⟨a, b⟩, hp, hb⟩ := Option.map_eq_some'.mp h
    simp only at hb
    subst hb
    cases highest <;> simp [glcsStep, hp, hd]
  · rw [if_neg hd] at h
    exact absurd h (by simp)

/-- Folding `glcsStep` from an already-set maximum accumulates the
maximum of the remaining `end` values. -/
theorem glcs_foldl_some (entries : List DirEntry) :
    ∀ (ends : List Nat) (a : Nat),
      entries.map (fun e => if e.isDir then (parseRange e.name).map Prod.snd
          else none) = ends.map some →
      entries.foldl glcsStep (some a) = some (ends.foldl max a) := by
  induction entries with
  | nil =>
    intro ends a h
    rcases ends with _ | ⟨b, bs⟩
    · rfl
    · exact absurd h.symm (by simp)
  | cons e es ih =>
    intro ends a h
    rcases ends with _ | ⟨b, bs⟩
    · exact absurd h (by simp)
    · simp only [List.map_cons, List.cons.injEq] at h
      obtain ⟨h1, h2⟩ := h
      simp only [List.foldl_cons, glcsStep_matching (some a) e b h1]
      exact ih bs (max a b) h2

/-- Claim C4: over completed batch directories named `{initial}-{end}`
(i.e. whose names match the `(\d+)-(\d+)` pattern) the computed
starting index is the maximum `end` value plus one; with no matching
directory — or no output directory at all — the starting index is 1. -/
theorem resume_correctness :
    (∀ (entries : List DirEntry) (ends : List Nat),
        entries.map (fun e => if e.isDir then (parseRange e.name).map Prod.snd
            else none) = ends.map some →
        ends ≠ [] →
        initial_chapter_number (get_last_chapter_scraped (some entries)) =
          ends.foldl max 0 + 1) ∧
    (∀ entries : List DirEntry,
        (∀ e ∈ entries, e.isDir = false ∨ parseRange e.name = none) →
        initial_chapter_number (get_last_chapter_scraped (some entries)) = 1) ∧
    initial_chapter_number (get_last_chapter_scraped none) = 1 := by
  refine ⟨?_, ?_, rfl⟩
  · intro entries ends h hne
    rcases ends with _ | ⟨b, bs⟩
    · exact absurd rfl hne
    rcases entries with _ | ⟨e, es⟩
    · exact absurd h.symm (by simp)
    simp only [List.map_cons, List.cons.injEq] at h
    obtain ⟨h1, h2⟩ := h
    have hfold : (e :: es).foldl glcsStep none = some (bs.foldl max b) := by
      simp only [List.foldl_cons, glcsStep_matching none e b h1]
      exact glcs_foldl_some es bs b h2
    simp only [get_last_chapter_scraped, hfold, initial_chapter_number,
      List.foldl_cons, Nat.zero_max]
  · intro entries h
    have : entries.foldl glcsStep none = none := by
      induction entries with
      | nil => rfl
      | cons e es ih =>
        have he := h e (List.mem_cons_self e es)
        have hstep : glcsStep none e = none := by
          rcases he with hd | hp
          · simp only [glcsStep]
            cases hpr : parseRange e.name with
            | none => rfl
            | some p => cases p with | mk a b => simp [hd]
          · simp [glcsStep, hp]
        simp only [List.foldl_cons, hstep]
        exact ih fun e' he' => h e' (List.mem_cons_of_mem _ he')
    simp [get_last_chapter_scraped, this, initial_chapter_number]

/-- Witness for C4 on two completed batches `3-7` and `8-12`. -/
theorem resume_correctness_witness :
    initial_chapter_number (get_last_chapter_scraped
        (some [⟨"3-7", true⟩, ⟨"8-12", true⟩])) = [7, 12].foldl max 0 + 1 :=
  resume_correctness.1 [⟨"3-7", true⟩, ⟨"8-12", true⟩] [7, 12] (by decide)
    (by decide)

/-- Prepending an event prepends it to the trace. -/
theorem traceOf_consEv (e : Ev) (r : ScrapeRes) :
    traceOf (consEv e r) = e :: traceOf r := by
  cases r <;> rfl

/-- A transport failure contributes no decision. -/
theorem decisionsOf_transportFail (t : List Ev) :
    decisionsOf (.transportFail :: t) = decisionsOf t := rfl

/-- A content failure contributes its decision flag. -/
theorem decisionsOf_contentFail (b : Bool) (t : List Ev) :
    decisionsOf (.contentFail b :: t) = b :: decisionsOf t := rfl

/-- Over a source that never satisfies the content selector (and whose
next-link lookup does not raise), the `j`-th content failure of the
retry loop entered with counter `r` carries a decision exactly when
`r + j` is a multiple of `max_retries`. -/
theorem scrape_loop_decisions (env : Env) (domain : String) (R : Nat)
    (hcontent : ∀ a u p, env.transport a u = some p → p.contentDiv = none)
    (hfind : ∀ a u p, env.transport a u = some p →
      ∃ nx, find_next_chapter_link domain p = .ok nx) :
    ∀ (fuel : Nat) (st : ScrapeState) (ctr : Ctr) (u : String) (n r : Nat)
      (chv : Option Chapter) (j : Nat) (b : Bool),
      (decisionsOf (traceOf
          (scrape_loop env domain R fuel st ctr u n r chv)))[j]? = some b →
      (b = true ↔ (r + j) % R = 0) := by
  intro fuel
  induction fuel with
  | zero =>
    intro st ctr u n r chv j b h
    simp [scrape_loop, traceOf, decisionsOf] at h
  | succ f ih =>
    intro st ctr u n r chv j b h
    rw [scrape_loop] at h
    cases htr : env.transport ctr.attempt u with
    | none =>
      rw [htr, traceOf_consEv, decisionsOf_transportFail] at h
      exact ih st _ u n r chv j b h
    | some page =>
      obtain ⟨nx, hfn⟩ := hfind _ _ _ htr
      have hcd := hcontent _ _ _ htr
      rw [htr] at h
      simp only [hfn, hcd] at h
      by_cases hg : r % R = 0
      · rw [if_pos hg] at h
        cases hch : env.choices ctr.choice with
        | n =>
          rw [hch] at h
          cases chv with
          | none =>
            simp only [traceOf, decisionsOf_contentFail] at h
            cases j with
            | zero =>
              simp only [decisionsOf, List.filterMap_nil, List.getElem?_cons_zero,
                Option.some.injEq] at h
              subst h
              simpa using hg
            | succ k =>
              simp [decisionsOf, List.filterMap_nil] at h
          | some ch =>
            simp only [traceOf, decisionsOf_contentFail] at h
            cases j with
            | zero =>
              simp only [decisionsOf, List.filterMap_nil, List.getElem?_cons_zero,
                Option.some.injEq] at h
              subst h
              simpa using hg
            | succ k =>
              simp [decisionsOf, List.filterMap_nil] at h
        | c =>
          rw [hch, traceOf_consEv, decisionsOf_contentFail] at h
          cases j with
          | zero =>
            simp only [List.getElem?_cons_zero, Option.some.injEq] at h
            subst h
            simpa using hg
          | succ k =>
            rw [List.getElem?_cons_succ] at h
            have := ih st _ _ n (r + 1) chv k b h
            rwa [show r + 1 + k = r + (k + 1) by omega] at this
        | y =>
          rw [hch, traceOf_consEv, decisionsOf_contentFail] at h
          cases j with
          | zero =>
            simp only [List.getElem?_cons_zero, Option.some.injEq] at h
            subst h
            simpa using hg
          | succ k =>
            rw [List.getElem?_cons_succ] at h
            have := ih st _ u n (r + 1) chv k b h
            rwa [show r + 1 + k = r + (k + 1) by omega] at this
      · rw [if_neg hg] at h
        rw [traceOf_consEv, decisionsOf_contentFail] at h
        cases j with
        | zero =>
          simp only [List.getElem?_cons_zero, Option.some.injEq] at h
          subst h
          simp [hg]
        | succ k =>
          rw [List.getElem?_cons_succ] at h
          have := ih st _ u n (r + 1) chv k b h
          rwa [show r + 1 + k = r + (k + 1) by omega] at this

/-- Claim C6: with `maxRetries = R ≥ 1` and a page that never
satisfies the content selector, `scrape_one_webpage` makes exactly one
escalation decision per `R` failed content attempts: the `j`-th
content failure (0-based; the counter starts at 1 and transport
failures do not advance it) carries a decision precisely when
`j + 1` is a multiple of `R`, and in particular never on the first
failed attempt when `R > 1`. -/
theorem retry_escalation_boundary (env : Env) (domain u : String)
    (R fuel : Nat) (st : ScrapeState) (ctr : Ctr) (n : Nat)
    (hR : 1 ≤ R)
    (hcontent : ∀ a u' p, env.transport a u' = some p → p.contentDiv = none)
    (hfind : ∀ a u' p, env.transport a u' = some p →
      ∃ nx, find_next_chapter_link domain p = .ok nx) :
    (∀ j b,
        (decisionsOf (traceOf
            (scrape_one_webpage env domain R fuel st ctr (some u) n)))[j]? =
          some b →
        (b = true ↔ (j + 1) % R = 0)) ∧
    (1 < R → ∀ b,
        (decisionsOf (traceOf
            (scrape_one_webpage env domain R fuel st ctr (some u) n)))[0]? =
          some b →
        b = false) := by
  have key := scrape_loop_decisions env domain R hcontent hfind fuel st ctr u n 1 none
  constructor
  · intro j b h
    have hj := key j b h
    rwa [show 1 + j = j + 1 by omega] at hj
  · intro hR1 b h
    have h0 := key 0 b h
    cases b with
    | false => rfl
    | true =>
      exfalso
      have : (1 + 0) % R = 0 := h0.mp rfl
      rw [Nat.mod_eq_of_lt (by omega)] at this
      omega

/-- Witness for C6: seven failed attempts under `R = 3` — the decision
flags are set exactly on the third and sixth failures; position 2
(the third failure) is a decision and `(2 + 1) % 3 = 0`. -/
theorem retry_escalation_boundary_witness :
    (decisionsOf (traceOf
        (scrape_one_webpage envNoContent "d" 3 7 ⟨[]⟩ ⟨0, 0⟩ (some "u") 1)))[2]? =
      some true ∧
    (true = true ↔ (2 + 1) % 3 = 0) :=
  ⟨by decide,
   (retry_escalation_boundary envNoContent "d" "u" 3 7 ⟨[]⟩ ⟨0, 0⟩ 1
      (by decide)
      (fun a u' p h => by
        simp only [envNoContent] at h
        exact (Option.some.inj h) ▸ rfl)
      (fun a u' p h => by
        simp only [envNoContent] at h
        exact ⟨none, (Option.some.inj h) ▸ rfl⟩)).1 2 true (by decide)⟩

/-- On a fragment with no `<p>` opening tag, removing the last
paragraph is the identity. -/
theorem remove_last_p_tag_of_no_open (y : String)
    (h : splitAtSub pOpen y.data = none) : remove_last_p_tag y = y := by
  obtain ⟨d⟩ := y
  simp only at h
  unfold remove_last_p_tag parseP
  cases d with
  | nil => rfl
  | cons c rest =>
    simp only [List.length_cons, parsePFuel, h, List.cons_ne_nil, if_false]
    simp [removeLastP, hasP, render]

/-- Claim C2 (amended): `clean_text` is idempotent on every input
whose cleaned form is free of the forbidden patterns (both removal
passes fix it) *and* contains no `<p>` element — the unconditional
last-paragraph removal re-fires on any paragraph left in the output,
so the extra third hypothesis is exactly what the counterexample
forces. -/
theorem cleaner_idempotent_amended (x : String)
    (h1 : remove_pattern (clean_text x) "libread.com" = clean_text x)
    (h2 : remove_exclusions (clean_text x) = clean_text x)
    (h3 : splitAtSub pOpen (clean_text x).data = none) :
    clean_text (clean_text x) = clean_text x := by
  show remove_last_p_tag (remove_exclusions (remove_pattern (nfkc (clean_text x))
    "libread.com")) = clean_text x
  rw [show nfkc (clean_text x) = clean_text x from rfl, h1, h2]
  exact remove_last_p_tag_of_no_open _ h3

/-- Witness for the amended C2: `"<p>a</p>"` cleans to `""`, on which
a second cleaning is the identity. -/
theorem cleaner_idempotent_amended_witness :
    clean_text (clean_text "<p>a</p>") = clean_text "<p>a</p>" :=
  cleaner_idempotent_amended "<p>a</p>" (by decide) (by decide) (by decide)

/-- If prepending an event yields a `done` result, the underlying
result was the same `done` (with a shorter trace). -/
theorem consEv_eq_done {e : Ev} {r : ScrapeRes} {st2 : ScrapeState}
    {hm : Bool} {next : Option String} {ctr2 : Ctr} {t : List Ev}
    (h : consEv e r = .done st2 hm next ctr2 t) :
    ∃ t', r = .done st2 hm next ctr2 t' := by
  cases r with
  | fuelOut t0 => exact absurd h (by simp [consEv])
  | err x s t0 => exact absurd h (by simp [consEv])
  | done a b c d t0 =>
    simp only [consEv, ScrapeRes.done.injEq] at h
    obtain ⟨h1, h2, h3, h4, _⟩ := h
    exact ⟨t0, by rw [h1, h2, h3, h4]⟩

/-- Every `done` result of the retry loop reports success and has
appended exactly one chapter. -/
theorem scrape_loop_done (env : Env) (domain : String) (R : Nat) :
    ∀ (fuel : Nat) (st : ScrapeState) (ctr : Ctr) (u : String) (n r : Nat)
      (chv : Option Chapter) (st2 : ScrapeState) (hm : Bool)
      (next : Option String) (ctr2 : Ctr) (t : List Ev),
      scrape_loop env domain R fuel st ctr u n r chv = .done st2 hm next ctr2 t →
      hm = true ∧ st2.chapters.length = st.chapters.length + 1 := by
  intro fuel
  induction fuel with
  | zero =>
    intro st ctr u n r chv st2 hm next ctr2 t h
    exact absurd h (by simp [scrape_loop])
  | succ f ih =>
    intro st ctr u n r chv st2 hm next ctr2 t h
    rw [scrape_loop] at h
    cases htr : env.transport ctr.attempt u with
    | none =>
      rw [htr] at h
      obtain ⟨t', h'⟩ := consEv_eq_done h
      exact ih st _ u n r chv st2 hm next ctr2 t' h'
    | some page =>
      rw [htr] at h
      cases hfn : find_next_chapter_link domain page with
      | error e0 =>
        simp only [hfn] at h
        exact absurd h (by simp)
      | ok nx =>
        simp only [hfn] at h
        cases hcd : page.contentDiv with
        | some body =>
          simp only [hcd, ScrapeRes.done.injEq] at h
          obtain ⟨h1, h2, _, _, _⟩ := h
          refine ⟨h2.symm, ?_⟩
          rw [← h1]
          simp
        | none =>
          simp only [hcd] at h
          by_cases hg : r % R = 0
          · rw [if_pos hg] at h
            cases hch : env.choices ctr.choice with
            | n =>
              simp only [hch] at h
              cases chv with
              | none => exact absurd h (by simp)
              | some ch =>
                simp only [ScrapeRes.done.injEq] at h
                obtain ⟨h1, h2, _, _, _⟩ := h
                refine ⟨h2.symm, ?_⟩
                rw [← h1]
                simp
            | c =>
              simp only [hch] at h
              obtain ⟨t', h'⟩ := consEv_eq_done h
              exact ih st _ _ n (r + 1) chv st2 hm next ctr2 t' h'
            | y =>
              simp only [hch] at h
              obtain ⟨t', h'⟩ := consEv_eq_done h
              exact ih st _ u n (r + 1) chv st2 hm next ctr2 t' h'
          · rw [if_neg hg] at h
            obtain ⟨t', h'⟩ := consEv_eq_done h
            exact ih st _ u n (r + 1) chv st2 hm next ctr2 t' h'

/-- A `done` result of `scrape_one_webpage` either reports success
with exactly one chapter appended, or is the immediate
end-of-content answer: failure, no next URL, state untouched. -/
theorem scrape_one_done (env : Env) (domain : String) (R fuel : Nat)
    (st : ScrapeState) (ctr : Ctr) (cur : Option String) (n : Nat)
    (st2 : ScrapeState) (hm : Bool) (next : Option String) (ctr2 : Ctr)
    (t : List Ev)
    (h : scrape_one_webpage env domain R fuel st ctr cur n =
      .done st2 hm next ctr2 t) :
    (hm = true ∧ st2.chapters.length = st.chapters.length + 1) ∨
    (hm = false ∧ st2 = st ∧ next = none) := by
  cases cur with
  | none =>
    right
    simp only [scrape_one_webpage, ScrapeRes.done.injEq] at h
    obtain ⟨h1, h2, h3, _, _⟩ := h
    exact ⟨h2.symm, h1.symm, h3.symm⟩
  | some u =>
    left
    exact scrape_loop_done env domain R fuel st ctr u n 1 none st2 hm next ctr2 t h

/-- The invariant of the batch loop: a normal exit starting at index
`i` with `rem` iterations left reports back the threaded `init`, a
final index between `i` and `i + rem - 1`, a frontier equal to one
append over the entry state, and a chapter count that grew by
`final - i + 1` (all iterations harvested) or by `final - i` (stopped
early on end-of-content at index `final`). -/
theorem worker_loop_ok (env : Env) (domain : String) (R fuel init : Nat) :
    ∀ (rem : Nat) (st : ScrapeState) (fs : Option String) (ctr : Ctr)
      (cur lv : Option String) (i : Nat) (st2 : ScrapeState)
      (fs2 : Option String) (a b : Nat),
      worker_loop env domain R fuel init rem st fs ctr cur lv i =
        .ok st2 fs2 a b →
      a = init ∧ i ≤ b ∧ b + 1 ≤ i + rem ∧
      (∃ u, fs2 = write_to_file fs u) ∧
      (st2.chapters.length = st.chapters.length + (b - i + 1) ∨
       st2.chapters.length = st.chapters.length + (b - i)) := by
  intro rem
  induction rem with
  | zero =>
    intro st fs ctr cur lv i st2 fs2 a b h
    exact absurd h (by simp [worker_loop])
  | succ rm ih =>
    intro st fs ctr cur lv i st2 fs2 a b h
    rw [worker_loop] at h
    cases hs : scrape_one_webpage env domain R fuel st ctr cur i with
    | fuelOut t =>
      rw [hs] at h
      exact absurd h (by simp)
    | err e s t =>
      rw [hs] at h
      exact absurd h (by simp)
    | done s2 hm next ctr2 t =>
      rw [hs] at h
      rcases scrape_one_done env domain R fuel st ctr cur i s2 hm next ctr2 t hs
        with ⟨hhm, hlen⟩ | ⟨hhm, hst, hnext⟩
      · subst hhm
        cases rm with
        | zero =>
          simp only [WorkerOutcome.ok.injEq] at h
          obtain ⟨h1, h2, h3, h4⟩ := h
          subst h1 h2 h3 h4
          exact ⟨rfl, Nat.le_refl i, by omega, ⟨next.or lv, rfl⟩,
            Or.inl (by omega)⟩
        | succ r0 =>
          have hrec := ih s2 fs ctr2 next (next.or lv) (i + 1) st2 fs2 a b h
          obtain ⟨ha, hib, hbnd, hex, hch⟩ := hrec
          refine ⟨ha, by omega, by omega, hex, ?_⟩
          rcases hch with hl | hr
          · exact Or.inl (by omega)
          · exact Or.inr (by omega)
      · subst hhm hst hnext
        simp only [WorkerOutcome.ok.injEq] at h
        obtain ⟨h1, h2, h3, h4⟩ := h
        subst h1 h2 h3 h4
        exact ⟨rfl, Nat.le_refl i, by omega, ⟨Option.none.or lv, rfl⟩,
          Or.inr (by omega)⟩

/-- Claim C3 (amended): a batch run that exits normally (not aborted)
reports `(initial, final)` with `initial` the computed resume index
and `initial ≤ final ≤ initial + size - 1`; it performs exactly one
frontier append (of the last-known-good URL) over the entry file
state; and the number of harvested units is `final - initial + 1` when
every iteration produced a unit, or `final - initial` when the batch
stopped early on end-of-content — in which case the reported `final`
is one past the index of the last unit produced, not equal to it. -/
theorem batch_report_range (env : Env) (domain : String) (R fuel : Nat)
    (st : ScrapeState) (fs : Option String) (listing : Option (List DirEntry))
    (url : Option String) (size : Nat) (st2 : ScrapeState)
    (fs2 : Option String) (a b : Nat)
    (h : scrape_worker env domain R fuel st fs listing url size =
      .ok st2 fs2 a b) :
    a = initial_chapter_number (get_last_chapter_scraped listing) ∧
    a ≤ b ∧ b + 1 ≤ a + size ∧
    (∃ u, fs2 = write_to_file fs u) ∧
    (st2.chapters.length = st.chapters.length + (b - a + 1) ∨
     st2.chapters.length = st.chapters.length + (b - a)) := by
  have hmain := worker_loop_ok env domain R fuel
    (initial_chapter_number (get_last_chapter_scraped listing)) size st fs
    ⟨0, 0⟩ url url (initial_chapter_number (get_last_chapter_scraped listing))
    st2 fs2 a b h
  obtain ⟨ha, hib, hbnd, hex, hch⟩ := hmain
  subst ha
  exact ⟨rfl, hib, hbnd, hex, hch⟩

/-- Witness for the amended C3 at the spec's scenario: batch size 3
from page 1, pages 1–3 all yield content, page 3 has no next link —
three units, the frontier checkpoint is page 3's URL, and the
reported range is `(1, 3)`. -/
theorem batch_report_range_witness :
    1 = initial_chapter_number (get_last_chapter_scraped none) ∧
    1 ≤ 3 ∧ 3 + 1 ≤ 1 + 3 ∧
    (∃ u, some "https://x/3\n" = write_to_file none u) ∧
    ((ScrapeState.mk [⟨"Chapter 1", "chapter1.xhtml", "<h2>Chapter 1</h2>A"⟩,
        ⟨"Chapter 2", "chapter2.xhtml", "<h2>Chapter 2</h2>B"⟩,
        ⟨"Chapter 3", "chapter3.xhtml", "<h2>Chapter 3</h2>C"⟩]).chapters.length =
          (ScrapeState.mk []).chapters.length + (3 - 1 + 1) ∨
     (ScrapeState.mk [⟨"Chapter 1", "chapter1.xhtml", "<h2>Chapter 1</h2>A"⟩,
        ⟨"Chapter 2", "chapter2.xhtml", "<h2>Chapter 2</h2>B"⟩,
        ⟨"Chapter 3", "chapter3.xhtml", "<h2>Chapter 3</h2>C"⟩]).chapters.length =
          (ScrapeState.mk []).chapters.length + (3 - 1)) :=
  batch_report_range envScenario "https://x" 3 4 ⟨[]⟩ none none (some "u1") 3
    (ScrapeState.mk [⟨"Chapter 1", "chapter1.xhtml", "<h2>Chapter 1</h2>A"⟩,
      ⟨"Chapter 2", "chapter2.xhtml", "<h2>Chapter 2</h2>B"⟩,
      ⟨"Chapter 3", "chapter3.xhtml", "<h2>Chapter 3</h2>C"⟩])
    (some "https://x/3\n") 1 3 (by decide)

/-- A list whose strip is itself has no leading whitespace and (via
its reverse) no trailing whitespace. -/
theorem stripChars_parts (v : List Char) (h : stripChars v = v) :
    v.dropWhile isPySpace = v ∧ v.reverse.dropWhile isPySpace = v.reverse := by
  have h1 := List.dropWhile_sublist (l := v) isPySpace
  have h2 := List.dropWhile_sublist (l := (v.dropWhile isPySpace).reverse) isPySpace
  have hv : (((v.dropWhile isPySpace).reverse.dropWhile isPySpace).reverse).length
      = v.length := by
    rw [show ((v.dropWhile isPySpace).reverse.dropWhile isPySpace).reverse = v
      from h]
  rw [List.length_reverse] at hv
  have l1 := h1.length_le
  have l2 := h2.length_le
  rw [List.length_reverse] at l2
  have hA : v.dropWhile isPySpace = v := h1.eq_of_length (by omega)
  have hB : (v.dropWhile isPySpace).reverse.dropWhile isPySpace =
      (v.dropWhile isPySpace).reverse :=
    h2.eq_of_length (by rw [List.length_reverse]; omega)
  refine ⟨hA, ?_⟩
  rw [hA] at hB
  exact hB

/-- If dropping whitespace from `a :: t` keeps it, `a` is not
whitespace. -/
theorem head_not_space (a : Char) (t : List Char)
    (h : (a :: t).dropWhile isPySpace = a :: t) : isPySpace a = false := by
  by_contra hp
  rw [Bool.not_eq_false] at hp
  rw [List.dropWhile_cons, if_pos hp] at h
  have hle := (List.dropWhile_sublist (l := t) isPySpace).length_le
  rw [h, List.length_cons] at hle
  omega

/-- Stripping an already-stripped nonempty value with a newline
appended recovers the value. -/
theorem stripChars_append_newline (v : List Char) (h : stripChars v = v)
    (hne : v ≠ []) : stripChars (v ++ ['\n']) = v := by
  obtain ⟨hd, hr⟩ := stripChars_parts v h
  cases v with
  | nil => exact absurd rfl hne
  | cons a t =>
    have ha := head_not_space a t hd
    unfold stripChars
    rw [List.cons_append, List.dropWhile_cons, if_neg (by simp [ha])]
    rw [show (a :: (t ++ ['\n'])).reverse = '\n' :: (a :: t).reverse from by
      rw [← List.cons_append, List.reverse_append]; rfl]
    rw [List.dropWhile_cons, if_pos (by decide)]
    rw [hr]
    exact List.reverse_reverse _

/-- A nonempty file has at least one line. -/
theorem pyLines_ne_nil {l : List Char} (h : l ≠ []) : pyLines l ≠ [] := by
  cases l with
  | nil => exact absurd rfl h
  | cons c rest =>
    rw [pyLines]
    by_cases hc : c = '\n'
    · simp [hc]
    · rw [if_neg hc]
      cases pyLines rest <;> simp

/-- Unfolding `pyLines` on a newline head. -/
theorem pyLines_cons_newline (x : List Char) :
    pyLines ('\n' :: x) = ['\n'] :: pyLines x := by
  rw [pyLines, if_pos rfl]

/-- Unfolding `pyLines` on a non-newline head. -/
theorem pyLines_cons_other (a : Char) (x : List Char) (ha : ¬a = '\n') :
    pyLines (a :: x) =
      match pyLines x with
      | [] => [[a]]
      | l :: ls => (a :: l) :: ls := by
  rw [pyLines, if_neg ha]

/-- Appending to a newline-terminated file appends whole lines. -/
theorem pyLines_append (c : List Char) :
    ∀ w : List Char, c.getLast? = some '\n' →
      pyLines (c ++ w) = pyLines c ++ pyLines w := by
  induction c with
  | nil => intro w h; simp at h
  | cons a t ih =>
    intro w h
    cases t with
    | nil =>
      rw [List.getLast?_singleton] at h
      obtain rfl : a = '\n' := Option.some.inj h
      show pyLines ('\n' :: w) = pyLines ['\n'] ++ pyLines w
      rw [pyLines_cons_newline]
      rfl
    | cons b t2 =>
      rw [List.getLast?_cons_cons] at h
      by_cases ha : a = '\n'
      · subst ha
        show pyLines ('\n' :: ((b :: t2) ++ w)) =
          pyLines ('\n' :: (b :: t2)) ++ pyLines w
        rw [pyLines_cons_newline, pyLines_cons_newline, ih w h]
        rfl
      · show pyLines (a :: ((b :: t2) ++ w)) =
          pyLines (a :: (b :: t2)) ++ pyLines w
        rw [pyLines_cons_other a _ ha, pyLines_cons_other a _ ha, ih w h]
        rcases hpl : pyLines (b :: t2) with _ | ⟨l0, ls⟩
        · exact absurd hpl (pyLines_ne_nil (by simp))
        · rw [List.cons_append]
          rfl

/-- A newline-free value followed by a newline is a single line. -/
theorem pyLines_terminal (v : List Char) (h : '\n' ∉ v) :
    pyLines (v ++ ['\n']) = [v ++ ['\n']] := by
  induction v with
  | nil => rfl
  | cons a t ih =>
    have ha : ¬a = '\n' := fun hh =>
      h (by rw [hh]; exact List.mem_cons_self _ _)
    have ht : '\n' ∉ t := fun hm => h (List.mem_cons_of_mem _ hm)
    show pyLines (a :: (t ++ ['\n'])) = [(a :: t) ++ ['\n']]
    rw [pyLines_cons_other a _ ha, ih ht]
    rfl

/-- `write_to_file` on an existing file, unfolded. -/
theorem write_to_file_some (c v : String) :
    write_to_file (some c) (some v) =
      match (pyLines c.data).getLast? with
      | some last =>
        if stripChars last = v.data then some c
        else some ⟨c.data ++ v.data ++ ['\n']⟩
      | none => some ⟨c.data ++ v.data ++ ['\n']⟩ := rfl

/-- The append is a no-op when the last stored line is the value plus
a newline. -/
theorem write_to_file_noop (c v : String)
    (h : (pyLines c.data).getLast? = some (v.data ++ ['\n']))
    (hstrip : stripChars (v.data ++ ['\n']) = v.data) :
    write_to_file (some c) (some v) = some c := by
  simp only [write_to_file_some, h]
  rw [if_pos hstrip]

/-- The frontier-file invariant survives every append. -/
theorem write_to_file_preserves_invariant (fs val : Option String)
    (h : newlineTerminated fs) : newlineTerminated (write_to_file fs val) := by
  cases val with
  | none => exact h
  | some v =>
    cases fs with
    | none =>
      exact Or.inr (show (v.data ++ ['\n']).getLast? = some '\n' from
        List.getLast?_concat _)
    | some c =>
      rw [write_to_file_some]
      rcases hq : (pyLines c.data).getLast? with _ | last
      · exact Or.inr (show ((c.data ++ v.data) ++ ['\n']).getLast? = some '\n'
          from List.getLast?_concat _)
      · show newlineTerminated (if stripChars last = v.data then some c
          else some ⟨c.data ++ v.data ++ ['\n']⟩)
        by_cases heq : stripChars last = v.data
        · rw [if_pos heq]; exact h
        · rw [if_neg heq]
          exact Or.inr (show ((c.data ++ v.data) ++ ['\n']).getLast? = some '\n'
            from List.getLast?_concat _)

/-- Claim C5: over any frontier-file state the store can produce
(absent, empty, or newline-terminated — see
`write_to_file_preserves_invariant`) and any URL value (nonempty, no
surrounding whitespace, no embedded newline), appending twice is the
same as appending once; one append either adds exactly the one line
`value ++ "\n"` after the existing lines or leaves the file unchanged
(prior lines are never rewritten or truncated); and the append is a
no-op whenever the most recent stored line already equals the value. -/
theorem frontier_append_idempotent (fs : Option String) (v : String)
    (hfs : newlineTerminated fs) (h1 : stripChars v.data = v.data)
    (h2 : v.data ≠ []) (h3 : '\n' ∉ v.data) :
    write_to_file (write_to_file fs (some v)) (some v) =
      write_to_file fs (some v) ∧
    (linesOf (write_to_file fs (some v)) = linesOf fs ++ [v.data ++ ['\n']] ∨
      write_to_file fs (some v) = fs) ∧
    ((linesOf fs).getLast? = some (v.data ++ ['\n']) →
      write_to_file fs (some v) = fs) := by
  have hstrip : stripChars (v.data ++ ['\n']) = v.data :=
    stripChars_append_newline v.data h1 h2
  have hterm : pyLines (v.data ++ ['\n']) = [v.data ++ ['\n']] :=
    pyLines_terminal v.data h3
  cases fs with
  | none =>
    have hl : (pyLines (String.mk (v.data ++ ['\n'])).data).getLast? =
        some (v.data ++ ['\n']) := by
      show (pyLines (v.data ++ ['\n'])).getLast? = _
      rw [hterm, List.getLast?_singleton]
    refine ⟨?_, Or.inl ?_, ?_⟩
    · exact write_to_file_noop _ v hl hstrip
    · show pyLines (v.data ++ ['\n']) = [] ++ [v.data ++ ['\n']]
      rw [hterm, List.nil_append]
    · intro hcon
      simp [linesOf] at hcon
  | some c =>
    have hfs' : c.data = [] ∨ c.data.getLast? = some '\n' := hfs
    rcases hfs' with hc0 | hcL
    · have hz : (pyLines c.data).getLast? = none := by rw [hc0]; rfl
      have hrw : c.data ++ v.data ++ ['\n'] = v.data ++ ['\n'] := by
        rw [hc0]; rfl
      have hw : write_to_file (some c) (some v) =
          some ⟨c.data ++ v.data ++ ['\n']⟩ := by
        simp only [write_to_file_some, hz]
      refine ⟨?_, Or.inl ?_, ?_⟩
      · rw [hw]
        apply write_to_file_noop
        · show (pyLines (c.data ++ v.data ++ ['\n'])).getLast? = _
          rw [hrw, hterm, List.getLast?_singleton]
        · exact hstrip
      · rw [hw]
        show pyLines (c.data ++ v.data ++ ['\n']) =
          pyLines c.data ++ [v.data ++ ['\n']]
        rw [hrw, hterm, hc0]
        rfl
      · intro hcon
        rw [show linesOf (some c) = pyLines c.data from rfl, hc0] at hcon
        simp [pyLines] at hcon
    · have hcnn : c.data ≠ [] := by
        intro h0
        rw [h0] at hcL
        simp at hcL
      obtain ⟨last, hlast⟩ : ∃ last, (pyLines c.data).getLast? = some last := by
        cases hq : (pyLines c.data).getLast? with
        | none =>
          exact absurd (List.getLast?_eq_none_iff.mp hq) (pyLines_ne_nil hcnn)
        | some x => exact ⟨x, rfl⟩
      have happ : pyLines (c.data ++ v.data ++ ['\n']) =
          pyLines c.data ++ [v.data ++ ['\n']] := by
        rw [List.append_assoc, pyLines_append c.data _ hcL, hterm]
      by_cases heq : stripChars last = v.data
      · have hw : write_to_file (some c) (some v) = some c := by
          simp only [write_to_file_some, hlast]
          rw [if_pos heq]
        exact ⟨by rw [hw, hw], Or.inr hw, fun _ => hw⟩
      · have hw : write_to_file (some c) (some v) =
            some ⟨c.data ++ v.data ++ ['\n']⟩ := by
          simp only [write_to_file_some, hlast]
          rw [if_neg heq]
        refine ⟨?_, Or.inl ?_, ?_⟩
        · rw [hw]
          apply write_to_file_noop
          · show (pyLines (c.data ++ v.data ++ ['\n'])).getLast? = _
            rw [happ, List.getLast?_concat]
          · exact hstrip
        · rw [hw]
          exact happ
        · intro hcon
          rw [show linesOf (some c) = pyLines c.data from rfl, hlast] at hcon
          exfalso
          apply heq
          rw [Option.some.inj hcon, hstrip]

/-- Witness for C5: file `"a\n"`, value `"u"` — the double append
equals the single append. -/
theorem frontier_append_idempotent_witness :
    newlineTerminated (some "a\n") ∧
    write_to_file (write_to_file (some "a\n") (some "u")) (some "u") =
      write_to_file (some "a\n") (some "u") :=
  ⟨Or.inr (by decide),
   (frontier_append_idempotent (some "a\n") "u" (Or.inr (by decide))
      (by decide) (by decide) (by decide)).1⟩

end NovelScraper
